import Mathlib

/-!
Verification of the Autowhisker queue processor (src/src/App.tsx).

The queue processor of `App.tsx` is shallowly embedded as a labeled transition
system.  A `QueueItem` mirrors the `QueueItem` interface; the Job Store is a
`List QueueItem` (the `queue` React state).  The processor run state mirrors the
`processingRef` / `pausedRef` booleans.  Since `processNext` is an async
function whose invocations are scheduled with `setTimeout` and whose generation
call is an awaited `fetch`, each outstanding loop activity is modelled as a
`LoopToken`: `.claim` is a scheduled `processNext` invocation that has not yet
claimed a job, `.inflight id` is an invocation whose generation request for job
`id` is outstanding.  Control-surface handlers (`handleStart`, `handlePause`,
`handleStop`, `retrySingleItem`, `retryAllErrors`, `savePromptEdit`,
`handleClearAll`) and the two halves of a `processNext` iteration (claim and
completion write-back) are the transition labels.
-/

/-- Job status, from the `QueueItem` interface.  `paused` is declared in the
source type but never assigned by any code path. -/
inductive Status where
  | pending
  | processing
  | done
  | error
  | paused
deriving DecidableEq, Repr, Inhabited

/-- One job record, from the `QueueItem` interface.  `id` (a
`crypto.randomUUID()` string in the source) is modelled as a `Nat` drawn from a
counter; `timestamp` (`toLocaleTimeString()`) is an opaque `Nat`. -/
structure QueueItem where
  id : Nat
  prompt : String
  status : Status
  imageUrl : Option String
  errorMsg : Option String
  timestamp : Nat
  isEditing : Bool
deriving DecidableEq, Repr, Inhabited

/-- Outcome of one Generation Client call (`POST /api/generate`): the parsed
response is either `data.success` with an optional `data.result?.url`, or a
failure carrying the error message (`data.error`, or the caught exception
message in the network-error branch). -/
inductive GenOutcome where
  | success (url : Option String)
  | failure (msg : String)
deriving DecidableEq, Repr

/-- An outstanding activity of the processing loop: a scheduled `processNext`
invocation that has not yet claimed a job, or an invocation whose generation
call for job `id` is in flight. -/
inductive LoopToken where
  | claim
  | inflight (jid : Nat)
deriving DecidableEq, Repr

/-- Character-level model of JavaScript `String.prototype.split('\n')`:
splitting on newline, keeping empty segments (so the empty string yields one
empty segment, as in JS). -/
def splitLines (l : List Char) : List (List Char) :=
  l.foldr
    (fun c acc =>
      match acc with
      | [] => [[c]]
      | a :: rest => if c = '\n' then [] :: a :: rest else (c :: a) :: rest)
    [[]]

/-- Character-level model of JavaScript `String.prototype.trim()`: strip
whitespace from both ends. -/
def trimChars (l : List Char) : List Char :=
  ((l.dropWhile Char.isWhitespace).reverse.dropWhile Char.isWhitespace).reverse

/-- Step 1 of `handleStart`: `promptsInput.split('\n').filter(line =>
line.trim().length > 0)`. -/
def parsedLines (input : String) : List String :=
  ((splitLines input.data).filter (fun l => (trimChars l).length > 0)).map
    (fun l => String.mk l)

/-- Step 2 of `handleStart`: one new `QueueItem` per parsed line, `prompt:
line.trim()`, `status: 'pending'`, with fresh ids from the counter. -/
def mkItems (lines : List String) (startId : Nat) : List QueueItem :=
  match lines with
  | [] => []
  | line :: rest =>
      { id := startId, prompt := String.mk (trimChars line.data),
        status := Status.pending, imageUrl := none, errorMsg := none,
        timestamp := 0, isEditing := false } :: mkItems rest (startId + 1)

/-- The `queue.some(i => i.status === 'pending')` check from `handleStart`. -/
def hasPending (q : List QueueItem) : Bool :=
  q.any (fun r => r.status == Status.pending)

/-- Number of records with status `pending`. -/
def pendingCount (q : List QueueItem) : Nat :=
  q.countP (fun r => r.status == Status.pending)

/-- Number of records with status `processing`. -/
def processingCount (q : List QueueItem) : Nat :=
  q.countP (fun r => r.status == Status.processing)

/-- The Job-Store part of `retrySingleItem`: map the record with the given id
to `status: 'pending', errorMsg: undefined`.  Note the source checks only the
id, not the current status. -/
def retrySingleItemQueue (itemId : Nat) (q : List QueueItem) : List QueueItem :=
  q.map (fun item =>
    if item.id = itemId then
      { item with status := Status.pending, errorMsg := none }
    else item)

/-- The Job-Store part of `retryAllErrors`: every `error` record becomes
`pending` with `errorMsg` cleared. -/
def retryAllErrorsQueue (q : List QueueItem) : List QueueItem :=
  q.map (fun item =>
    if item.status = Status.error then
      { item with status := Status.pending, errorMsg := none }
    else item)

/-- Model of `savePromptEdit`: replace the prompt of the record with the given id and
leave editing mode. -/
def savePromptEditQueue (itemId : Nat) (newPrompt : String)
    (q : List QueueItem) : List QueueItem :=
  q.map (fun item =>
    if item.id = itemId then
      { item with prompt := newPrompt, isEditing := false }
    else item)

/-- The success branch of `handleClearAll` (external deletion reported
`data.success`): first updater resets every record's `imageUrl` and maps
`done` to `pending`; second updater filters out records still having status
`done`. -/
def handleClearAllQueue (q : List QueueItem) : List QueueItem :=
  (q.map (fun item =>
    { item with imageUrl := none,
                status := if item.status = Status.done then Status.pending
                          else item.status })).filter
    (fun item => !(item.status == Status.done))

/-- The claim half of `processNext`: mark the record with the claimed id as
`processing`. -/
def markProcessing (itemId : Nat) (q : List QueueItem) : List QueueItem :=
  q.map (fun item =>
    if item.id = itemId then { item with status := Status.processing }
    else item)

/-- The `data.result?.url || 'check_gallery'` fallback: a missing or empty url is replaced
by the sentinel `check_gallery`. -/
def urlOrGallery : Option String → String
  | some u => if u = "" then "check_gallery" else u
  | none => "check_gallery"

/-- The write-back of `processNext` after the generation call returns: on
success the claimed record becomes `done` with the returned (or sentinel)
reference, on failure it becomes `error` with the message. -/
def applyOutcome (itemId : Nat) (o : GenOutcome) (q : List QueueItem) :
    List QueueItem :=
  q.map (fun item =>
    if item.id = itemId then
      match o with
      | GenOutcome.success url =>
          { item with status := Status.done, imageUrl := some (urlOrGallery url) }
      | GenOutcome.failure msg =>
          { item with status := Status.error, errorMsg := some msg }
    else item)

/-- Model of `fetchLatestImageFor`: if the artifact listing is nonempty, overwrite the
record's `imageUrl` with the most recent artifact, guarded by `item.id ===
itemId && item.status === 'done'`.  An empty list also covers the silently
caught listing failure. -/
def fetchLatestFor (itemId : Nat) (files : List String) (q : List QueueItem) :
    List QueueItem :=
  match files with
  | [] => q
  | latest :: _ =>
      q.map (fun item =>
        if item.id = itemId && item.status == Status.done then
          { item with imageUrl := some latest }
        else item)

/-- The whole success path of one `processNext` iteration on the Job Store:
the `done` write-back followed by the unconditional `fetchLatestImageFor`
call. -/
def onSuccess (itemId : Nat) (url : Option String) (files : List String)
    (q : List QueueItem) : List QueueItem :=
  fetchLatestFor itemId files (applyOutcome itemId (GenOutcome.success url) q)

/-- Full application state: Job Store, run state (`processingRef`,
`pausedRef`), outstanding loop activities, the id counter, the prompt text
box, and the credential. -/
structure AppState where
  queue : List QueueItem
  processing : Bool
  paused : Bool
  tokens : List LoopToken
  nextId : Nat
  promptsInput : String
  cookie : String
deriving Repr

/-- Initial state: empty Job Store, idle run state, no loop activity. -/
def initState (input cookie : String) : AppState :=
  { queue := [], processing := false, paused := false, tokens := [],
    nextId := 0, promptsInput := input, cookie := cookie }

/-- Model of `handleStart`: reject an empty cookie; parse lines; reject empty input
with no pending job; append new records and clear the input; clear `paused`;
launch a new loop invocation only when not already processing. -/
def handleStart (s : AppState) : AppState :=
  if s.cookie = "" then s
  else
    let lines := parsedLines s.promptsInput
    if lines.isEmpty && !hasPending s.queue then s
    else
      let q := s.queue ++ mkItems lines s.nextId
      let input := if lines.isEmpty then s.promptsInput else ""
      let nid := s.nextId + lines.length
      if s.processing then
        { s with queue := q, promptsInput := input, nextId := nid,
                 paused := false }
      else
        { s with queue := q, promptsInput := input, nextId := nid,
                 paused := false, processing := true,
                 tokens := s.tokens ++ [LoopToken.claim] }

/-- Model of `handlePause`: `isPaused := true`, `isProcessing := false`. -/
def handlePause (s : AppState) : AppState :=
  { s with paused := true, processing := false }

/-- Model of `handleStop`: `isProcessing := false`, `isPaused := false`. -/
def handleStop (s : AppState) : AppState :=
  { s with processing := false, paused := false }

/-- Model of `retrySingleItem`: reset the record, then launch a loop invocation if not
already processing. -/
def retrySingleItem (itemId : Nat) (s : AppState) : AppState :=
  let q := retrySingleItemQueue itemId s.queue
  if s.processing then { s with queue := q }
  else
    { s with queue := q, processing := true,
             tokens := s.tokens ++ [LoopToken.claim] }

/-- Model of `retryAllErrors`: reset every error record, then launch a loop invocation
if not already processing. -/
def retryAllErrors (s : AppState) : AppState :=
  let q := retryAllErrorsQueue s.queue
  if s.processing then { s with queue := q }
  else
    { s with queue := q, processing := true,
             tokens := s.tokens ++ [LoopToken.claim] }

/-- Run the `i`-th outstanding loop invocation up to its claim: return
immediately when not processing or paused; otherwise atomically claim the
first `pending` record, or drain (`setIsProcessing(false)`) when none
exists. -/
def runClaimStep (i : Nat) (s : AppState) : AppState :=
  match s.tokens.get? i with
  | some LoopToken.claim =>
      if s.processing && !s.paused then
        match s.queue.find? (fun r => r.status == Status.pending) with
        | some it =>
            { s with queue := markProcessing it.id s.queue,
                     tokens := s.tokens.set i (LoopToken.inflight it.id) }
        | none =>
            { s with processing := false, tokens := s.tokens.eraseIdx i }
      else { s with tokens := s.tokens.eraseIdx i }
  | _ => s

/-- The generation call of the `i`-th loop invocation returns with outcome
`o`: write the outcome back to the claimed record and schedule the next
`processNext` (after the fixed 2000 ms delay, not observable here). -/
def completeStep (i : Nat) (o : GenOutcome) (s : AppState) : AppState :=
  match s.tokens.get? i with
  | some (LoopToken.inflight jid) =>
      { s with queue := applyOutcome jid o s.queue,
               tokens := s.tokens.set i LoopToken.claim }
  | _ => s

/-- Transition labels: the six Control Surface operations, typing into the
prompt box, the bulk clear, and the loop's claim / completion / reconciliation
steps. -/
inductive Label where
  | start
  | pause
  | stop
  | retryOne (itemId : Nat)
  | retryAll
  | edit (itemId : Nat) (newPrompt : String)
  | clearAll
  | setInput (input : String)
  | runClaim (i : Nat)
  | complete (i : Nat) (o : GenOutcome)
  | reconcile (itemId : Nat) (files : List String)

/-- One transition. -/
def step (l : Label) (s : AppState) : AppState :=
  match l with
  | Label.start => handleStart s
  | Label.pause => handlePause s
  | Label.stop => handleStop s
  | Label.retryOne itemId => retrySingleItem itemId s
  | Label.retryAll => retryAllErrors s
  | Label.edit itemId p => { s with queue := savePromptEditQueue itemId p s.queue }
  | Label.clearAll => { s with queue := handleClearAllQueue s.queue }
  | Label.setInput input => { s with promptsInput := input }
  | Label.runClaim i => runClaimStep i s
  | Label.complete i o => completeStep i o s
  | Label.reconcile itemId files =>
      { s with queue := fetchLatestFor itemId files s.queue }

/-- Run a sequence of transitions. -/
def run (ls : List Label) (s : AppState) : AppState :=
  match ls with
  | [] => s
  | l :: rest => run rest (step l s)

/-- A label is safe in a state when it does not relaunch the loop while a
previously launched invocation is still outstanding: `handleStart`,
`retrySingleItem` and `retryAllErrors` spawn a new invocation exactly when the
processing flag is off, so they are safe when either the flag is on or no
invocation is outstanding. -/
def safeLabel (s : AppState) : Label → Bool
  | Label.start => s.tokens.isEmpty || s.processing
  | Label.retryOne _ => s.tokens.isEmpty || s.processing
  | Label.retryAll => s.tokens.isEmpty || s.processing
  | _ => true

/-- Every label of the trace is safe in the state where it fires. -/
def safeTrace : List Label → AppState → Bool
  | [], _ => true
  | l :: rest, s => safeLabel s l && safeTrace rest (step l s)

/-- Ids of jobs with an outstanding generation call. -/
def inflightIds (ts : List LoopToken) : List Nat :=
  ts.filterMap (fun t =>
    match t with
    | LoopToken.inflight jid => some jid
    | LoopToken.claim => none)

/-- Inductive invariant for the at-most-one-in-flight argument: at most one
loop invocation is outstanding, every `processing` record belongs to an
in-flight invocation, ids are unique, and the id counter is fresh. -/
def SysInv (s : AppState) : Prop :=
  s.tokens.length ≤ 1
  ∧ (∀ r ∈ s.queue, r.status = Status.processing → r.id ∈ inflightIds s.tokens)
  ∧ (s.queue.map (fun r => r.id)).Nodup
  ∧ (∀ r ∈ s.queue, r.id < s.nextId)

/-- Status a completed generation call resolves its record to. -/
def outcomeStatus : GenOutcome → Status
  | GenOutcome.success _ => Status.done
  | GenOutcome.failure _ => Status.error

/-- The processing loop run synchronously to exhaustion: while a pending
record remains, perform one full iteration (claim plus write-back of the next
client outcome), then the final claim attempt that observes the drained queue.
`outs` is the stream of Generation Client responses. -/
def drainLoop (outs : List GenOutcome) (s : AppState) : AppState :=
  match outs with
  | [] => runClaimStep 0 s
  | o :: rest =>
      if hasPending s.queue then
        drainLoop rest (completeStep 0 o (runClaimStep 0 s))
      else runClaimStep 0 s

/-- Projection of the Job Store to the fields the end-to-end scenario is
about. -/
def view (q : List QueueItem) : List (String × Status × Option String) :=
  q.map (fun r => (r.prompt, r.status, r.errorMsg))

/-- End-to-end scenario, phase 1: Start with the two lines, then the loop
claims "a cat" (which succeeds), claims "a dog" (which fails with "rate
limited"), and drains. -/
def scenarioPhase1 : AppState :=
  run
    [Label.start,
     Label.runClaim 0,
     Label.complete 0 (GenOutcome.success (some "http://localhost:5000/output/1.png")),
     Label.reconcile 0 [],
     Label.runClaim 0,
     Label.complete 0 (GenOutcome.failure "rate limited"),
     Label.runClaim 0]
    (initState "a cat\na dog" "cookie")

/-- End-to-end scenario, phase 2: Retry-one on the second record, then the
loop claims it, the client succeeds, and the loop drains. -/
def scenarioPhase2 : AppState :=
  run
    [Label.retryOne 1,
     Label.runClaim 0,
     Label.complete 0 (GenOutcome.success (some "http://localhost:5000/output/2.png")),
     Label.reconcile 1 [],
     Label.runClaim 0]
    scenarioPhase1

/-- A record that has completed successfully, used as concrete input. -/
def doneItem : QueueItem :=
  { id := 0, prompt := "p", status := Status.done, imageUrl := some "u",
    errorMsg := none, timestamp := 0, isEditing := false }

/-- A record awaiting processing, used as concrete input. -/
def pendItem : QueueItem :=
  { id := 0, prompt := "p", status := Status.pending, imageUrl := none,
    errorMsg := none, timestamp := 0, isEditing := false }

/-- A failed record, used as concrete input. -/
def errItem : QueueItem :=
  { id := 1, prompt := "q", status := Status.error, imageUrl := none,
    errorMsg := some "boom", timestamp := 1, isEditing := false }

/-- A record currently being processed, used as concrete input. -/
def procItem : QueueItem :=
  { id := 0, prompt := "p", status := Status.processing, imageUrl := none,
    errorMsg := none, timestamp := 0, isEditing := false }

/-- Concrete state with one claimed job in flight, used for witnesses. -/
def stateInflight : AppState :=
  { queue := [procItem, errItem], processing := true, paused := false,
    tokens := [LoopToken.inflight 0], nextId := 2, promptsInput := "",
    cookie := "cookie" }

/-- Concrete drained state with one completed job, used for witnesses. -/
def stateDrained : AppState :=
  { queue := [doneItem], processing := true, paused := false,
    tokens := [LoopToken.claim], nextId := 1, promptsInput := "",
    cookie := "cookie" }

/-- Job Store after pausing `stateInflight` and then letting the in-flight
call for job 0 fail; used for witnesses. -/
def pausedCompleteQueue : List QueueItem :=
  (step (Label.complete 0 (GenOutcome.failure "boom"))
    (step Label.pause stateInflight)).queue

/-- Claim C10: if the credential is empty, or the input has no non-blank line
and no record is pending, `handleStart` changes nothing: no records are
created, run state is untouched, no loop is launched. -/
theorem start_noop_on_empty_input (s : AppState)
    (h : s.cookie = "" ∨
      (parsedLines s.promptsInput = [] ∧ hasPending s.queue = false)) :
    step Label.start s = s := by
  simp only [step, handleStart]
  rcases h with h | ⟨h1, h2⟩
  · simp [h]
  · by_cases hc : s.cookie = ""
    · simp [hc]
    · simp [hc, h1, h2]

/-- Witness for C10 at a concrete state with an empty credential. -/
theorem start_noop_on_empty_input_witness :
    step Label.start (initState "x" "") = initState "x" "" :=
  start_noop_on_empty_input (initState "x" "") (Or.inl rfl)

/-- Claim C9: calling Start while the processor is already running appends the
newly entered lines to the Store but launches no second loop invocation
(tokens unchanged), keeps the processing flag set, and leaves already-queued
records untouched (they form an unchanged prefix). -/
theorem start_idempotent_while_running (s : AppState) (h1 : s.processing = true)
    (h2 : s.cookie ≠ "") :
    (step Label.start s).tokens = s.tokens ∧
    (step Label.start s).processing = true ∧
    (step Label.start s).queue =
      s.queue ++ mkItems (parsedLines s.promptsInput) s.nextId := by
  simp only [step, handleStart]
  by_cases he : (parsedLines s.promptsInput).isEmpty ∧ hasPending s.queue = false
  · have h3 : parsedLines s.promptsInput = [] := by
      simpa [List.isEmpty_iff] using he.1
    simp [h2, h1, h3, he.2, mkItems]
  · have h4 : ((parsedLines s.promptsInput).isEmpty && !hasPending s.queue) = false := by
      cases hb : (parsedLines s.promptsInput).isEmpty with
      | false => simp [hb]
      | true =>
          cases hp : hasPending s.queue with
          | false => exact absurd ⟨hb, hp⟩ he
          | true => simp [hp]
    simp [h2, h1, h4]

/-- Witness for C9: Start while running appends the one new line and spawns no
further loop invocation. -/
theorem start_idempotent_while_running_witness :
    (step Label.start { stateInflight with promptsInput := "new prompt" }).tokens =
        stateInflight.tokens ∧
      (step Label.start { stateInflight with promptsInput := "new prompt" }).processing = true ∧
      (step Label.start { stateInflight with promptsInput := "new prompt" }).queue =
        stateInflight.queue ++
          mkItems (parsedLines "new prompt") stateInflight.nextId :=
  start_idempotent_while_running
    { stateInflight with promptsInput := "new prompt" } rfl (by decide)

/-- Claim C3, counterexample: `retrySingleItem` does not leave non-`error`
records unchanged — a `done` record with the targeted id is reset to
`pending`. -/
theorem retrySingleItem_not_error_only_cex :
    retrySingleItemQueue 0 [doneItem] ≠ [doneItem] := by decide

/-- Claim C3, amended: `retrySingleItem` resets the record with the given id
to `pending` with `errorMsg` cleared regardless of its current status (the
error-only restriction lives in the UI, which offers Retry only on `error`
rows), and leaves records with other ids unchanged, in place. -/
theorem retrySingleItem_resets_by_id (q : List QueueItem) (itemId : Nat)
    (i : Nat) (h : i < q.length) :
    (retrySingleItemQueue itemId q).length = q.length ∧
    ∀ h2 : i < (retrySingleItemQueue itemId q).length,
      (retrySingleItemQueue itemId q).get ⟨i, h2⟩ =
        (if (q.get ⟨i, h⟩).id = itemId
         then { q.get ⟨i, h⟩ with status := Status.pending, errorMsg := none }
         else q.get ⟨i, h⟩) := by
  refine ⟨by simp [retrySingleItemQueue], ?_⟩
  intro h2
  simp [retrySingleItemQueue]

/-- Witness for C3 (amended) at a concrete two-record queue: the `error`
record with the targeted id becomes `pending` with its message cleared. -/
theorem retrySingleItem_resets_by_id_witness :
    (retrySingleItemQueue 1 [doneItem, errItem]).length = 2 ∧
      (retrySingleItemQueue 1 [doneItem, errItem]).get ⟨1, by decide⟩ =
        { errItem with status := Status.pending, errorMsg := none } := by
  have h := retrySingleItem_resets_by_id [doneItem, errItem] 1 1 (by decide)
  exact ⟨h.1, by simpa using h.2 (by decide)⟩

/-- Claim C4, counterexample: with a nonempty immediate result reference "u"
and a nonempty artifact listing, the reconciliation still runs and overwrites
the reference (with "v"), so it is not attempted only when the immediate
reference is empty. -/
theorem reconcile_despite_url_cex :
    (onSuccess 0 (some "u") ["v"] [pendItem]).map (fun r => r.imageUrl) =
        [some "v"] ∧
      (onSuccess 0 (some "u") ["v"] [pendItem]).map (fun r => r.imageUrl) ≠
        [some "u"] := by
  constructor
  · decide
  · decide

/-- Claim C4, amended: on success the claimed record is set to `done` with the
returned reference (or the `check_gallery` sentinel), and the best-effort
reconciliation is attempted on every success — when the listing is nonempty it
overwrites the record's reference with the most recent artifact even if the
immediate reference was nonempty; the reconciliation never changes any
record's status (so it never fails the job). -/
theorem success_path_characterization (itemId : Nat) (url : Option String)
    (files : List String) (q : List QueueItem) :
    ((onSuccess itemId url files q).map (fun r => r.status) =
        (applyOutcome itemId (GenOutcome.success url) q).map (fun r => r.status)) ∧
      (∀ r ∈ applyOutcome itemId (GenOutcome.success url) q,
        r.id = itemId → r.status = Status.done ∧ r.imageUrl = some (urlOrGallery url)) ∧
      (∀ latest rest, files = latest :: rest →
        ∀ r ∈ onSuccess itemId url files q, r.id = itemId →
          r.imageUrl = some latest) := by
  have hdoneOf : ∀ r ∈ applyOutcome itemId (GenOutcome.success url) q,
      r.id = itemId → r.status = Status.done ∧ r.imageUrl = some (urlOrGallery url) := by
    intro r hr hid
    simp only [applyOutcome, List.mem_map] at hr
    obtain ⟨r0, _, hr0⟩ := hr
    by_cases hi : r0.id = itemId
    · rw [if_pos hi] at hr0
      subst hr0
      exact ⟨rfl, rfl⟩
    · rw [if_neg hi] at hr0
      subst hr0
      exact absurd hid hi
  refine ⟨?_, hdoneOf, ?_⟩
  · cases files with
    | nil => rfl
    | cons latest rest =>
        simp only [onSuccess, fetchLatestFor, List.map_map]
        apply List.map_congr_left
        intro r _
        by_cases hc : r.id = itemId ∧ r.status = Status.done
        · simp [Function.comp, hc]
        · simp [Function.comp, hc]
  · intro latest rest hf r hr hid
    subst hf
    simp only [onSuccess, fetchLatestFor, List.mem_map] at hr
    obtain ⟨r1, hr1, hmap⟩ := hr
    simp only [Bool.and_eq_true, decide_eq_true_eq, beq_iff_eq] at hmap
    by_cases hc : r1.id = itemId ∧ r1.status = Status.done
    · rw [if_pos hc] at hmap
      subst hmap
      rfl
    · rw [if_neg hc] at hmap
      subst hmap
      exact absurd ⟨hid, (hdoneOf r1 hr1 hid).1⟩ hc

/-- Witness for C4 (amended), at a success for job 0 with immediate reference
"u" and listing head "v". -/
theorem success_path_characterization_witness :
    ((onSuccess 0 (some "u") ["v"] [pendItem]).map (fun r => r.status) =
        (applyOutcome 0 (GenOutcome.success (some "u")) [pendItem]).map
          (fun r => r.status)) ∧
      ((applyOutcome 0 (GenOutcome.success (some "u")) [pendItem]).headI.status =
        Status.done) ∧
      (onSuccess 0 (some "u") ["v"] [pendItem]).headI.imageUrl = some "v" := by
  have h := success_path_characterization 0 (some "u") ["v"] [pendItem]
  refine ⟨h.1, ?_, ?_⟩
  · exact (h.2.1 ((applyOutcome 0 (GenOutcome.success (some "u")) [pendItem]).headI)
      (by decide) (by decide)).1
  · exact h.2.2 "v" [] rfl ((onSuccess 0 (some "u") ["v"] [pendItem]).headI)
      (by decide) (by decide)

/-- Claim C5 (code bug): after a successful Clear-All, the formerly-`done`
record is not removed from the Store — the first queue updater has already
reset it to `pending` (clearing its reference), so the second updater's
`done`-filter removes nothing. -/
theorem clearAll_keeps_done_as_pending :
    handleClearAllQueue [doneItem] =
      [{ doneItem with status := Status.pending, imageUrl := none }] := by
  decide

/-- Claim C2: submitting the two lines "a cat" and "a dog", with the client
succeeding for "a cat" and failing for "a dog" with "rate limited", drains to
a Store of exactly done/error with that message; Retry-one on the second
record followed by a successful generation yields both records `done`. -/
theorem scenario_cat_dog :
    view scenarioPhase1.queue =
        [("a cat", Status.done, (none : Option String)),
         ("a dog", Status.error, some "rate limited")] ∧
      scenarioPhase1.processing = false ∧
      scenarioPhase2.queue.map (fun r => r.status) = [Status.done, Status.done] := by
  refine ⟨by decide, by decide, by decide⟩

/-- Lemma that `List.find?` returns the first match: the list splits at the returned
element and everything before it fails the predicate. -/
theorem find?_split {α : Type} (p : α → Bool) (l : List α) (a : α)
    (h : l.find? p = some a) :
    p a = true ∧ ∃ l1 l2, l = l1 ++ a :: l2 ∧ ∀ x ∈ l1, p x = false := by
  induction l with
  | nil => simp at h
  | cons x xs ih =>
      cases hp : p x with
      | true =>
          rw [List.find?_cons_of_pos _ hp] at h
          obtain rfl : x = a := by simpa using h
          exact ⟨hp, [], xs, rfl, by simp⟩
      | false =>
          rw [List.find?_cons_of_neg _ (by simp [hp])] at h
          obtain ⟨hpa, l1, l2, rfl, hl1⟩ := ih h
          refine ⟨hpa, x :: l1, l2, rfl, ?_⟩
          intro y hy
          rcases List.mem_cons.mp hy with rfl | hy2
          · exact hp
          · exact hl1 y hy2

/-- No pending record means the claim scan comes up empty. -/
theorem find?_pending_eq_none (q : List QueueItem) (h : hasPending q = false) :
    q.find? (fun r => r.status == Status.pending) = none := by
  rw [List.find?_eq_none]
  intro x hx hpx
  have : hasPending q = true := by
    simp only [hasPending, List.any_eq_true]
    exact ⟨x, hx, hpx⟩
  rw [this] at h
  exact Bool.noConfusion h

/-- A pending record exists exactly when the claim scan finds one. -/
theorem exists_find?_of_hasPending (q : List QueueItem)
    (h : hasPending q = true) :
    ∃ it, q.find? (fun r => r.status == Status.pending) = some it := by
  cases hf : q.find? (fun r => r.status == Status.pending) with
  | some it => exact ⟨it, rfl⟩
  | none =>
      rw [List.find?_eq_none] at hf
      simp only [hasPending, List.any_eq_true] at h
      obtain ⟨x, hx, hpx⟩ := h
      exact absurd hpx (hf x hx)

/-- One full processing iteration (claim of the first pending record plus the
outcome write-back) strictly decreases the number of pending records. -/
theorem countP_le_of_pointwise (p : QueueItem → Bool)
    (f : QueueItem → QueueItem) (hf : ∀ r, p (f r) = true → p r = true)
    (l : List QueueItem) : (l.map f).countP p ≤ l.countP p := by
  induction l with
  | nil => simp
  | cons r rest ih =>
      simp only [List.map_cons, List.countP_cons]
      have hle : (if p (f r) = true then 1 else 0) ≤
          (if p r = true then 1 else 0) := by
        cases hr : p (f r) with
        | false => simp
        | true => simp [hf r hr]
      omega

theorem pendingCount_applyOutcome_le (i : Nat) (o : GenOutcome)
    (l : List QueueItem) :
    pendingCount (applyOutcome i o l) ≤ pendingCount l := by
  apply countP_le_of_pointwise
  intro r hr
  by_cases hi : r.id = i
  · rw [if_pos hi] at hr
    cases o with
    | success url => simp at hr
    | failure msg => simp at hr
  · rwa [if_neg hi] at hr

theorem pendingCount_markProcessing_le (i : Nat) (l : List QueueItem) :
    pendingCount (markProcessing i l) ≤ pendingCount l := by
  apply countP_le_of_pointwise
  intro r hr
  by_cases hi : r.id = i
  · rw [if_pos hi] at hr
    simp at hr
  · rwa [if_neg hi] at hr

theorem pendingCount_apply_mark_le (i : Nat) (o : GenOutcome)
    (l : List QueueItem) :
    pendingCount (applyOutcome i o (markProcessing i l)) ≤ pendingCount l :=
  le_trans (pendingCount_applyOutcome_le i o (markProcessing i l))
    (pendingCount_markProcessing_le i l)

theorem pendingCount_pos_of_hasPending (q : List QueueItem)
    (h : hasPending q = true) : 0 < pendingCount q := by
  simp only [hasPending, List.any_eq_true] at h
  obtain ⟨x, hx, hpx⟩ := h
  exact List.countP_pos_iff.mpr ⟨x, hx, hpx⟩

theorem pendingCount_iteration_lt (q : List QueueItem) (it : QueueItem)
    (o : GenOutcome)
    (h : q.find? (fun r => r.status == Status.pending) = some it) :
    pendingCount (applyOutcome it.id o (markProcessing it.id q)) <
      pendingCount q := by
  obtain ⟨hp, l1, l2, rfl, hl1⟩ := find?_split _ _ _ h
  have hsplit : applyOutcome it.id o (markProcessing it.id (l1 ++ it :: l2)) =
      applyOutcome it.id o (markProcessing it.id l1) ++
        (applyOutcome it.id o (markProcessing it.id [it]) ++
          applyOutcome it.id o (markProcessing it.id l2)) := by
    simp [applyOutcome, markProcessing]
  have key : pendingCount (applyOutcome it.id o (markProcessing it.id (l1 ++ it :: l2))) =
      pendingCount (applyOutcome it.id o (markProcessing it.id l1)) +
        (pendingCount (applyOutcome it.id o (markProcessing it.id [it])) +
          pendingCount (applyOutcome it.id o (markProcessing it.id l2))) := by
    rw [hsplit]
    simp [pendingCount, List.countP_append]
  have hq : pendingCount (l1 ++ it :: l2) =
      pendingCount l1 + (pendingCount l2 + 1) := by
    simp [pendingCount, List.countP_append, List.countP_cons, hp]
  have hmid : pendingCount (applyOutcome it.id o (markProcessing it.id [it])) = 0 := by
    cases o with
    | success url => simp [pendingCount, applyOutcome, markProcessing]
    | failure msg => simp [pendingCount, applyOutcome, markProcessing]
  have hA := pendingCount_apply_mark_le it.id o l1
  have hB := pendingCount_apply_mark_le it.id o l2
  rw [key, hq, hmid]
  omega


/-- The synchronous drain halts with the processing flag cleared whenever the
Generation Client answers at least once per pending record. -/
theorem drainLoop_halts (outs : List GenOutcome) :
    ∀ t : AppState, pendingCount t.queue ≤ outs.length →
      t.tokens = [LoopToken.claim] → t.processing = true → t.paused = false →
      (drainLoop outs t).processing = false := by
  induction outs with
  | nil =>
      intro t hcount htok hproc hpaus
      rw [drainLoop]
      have h0 : pendingCount t.queue = 0 := Nat.le_zero.mp hcount
      have hpend : hasPending t.queue = false := by
        cases hb : hasPending t.queue with
        | false => rfl
        | true =>
            exact absurd (pendingCount_pos_of_hasPending _ hb) (by omega)
      have hfind := find?_pending_eq_none t.queue hpend
      simp [runClaimStep, htok, hproc, hpaus, hfind]
  | cons o rest ih =>
      intro t hcount htok hproc hpaus
      rw [drainLoop]
      cases hpend : hasPending t.queue with
      | false =>
          have hfind := find?_pending_eq_none t.queue hpend
          simp [runClaimStep, htok, hproc, hpaus, hfind]
      | true =>
          simp only [if_pos rfl]
          obtain ⟨it, hfind⟩ := exists_find?_of_hasPending _ hpend
          have hs1 : runClaimStep 0 t =
              { t with queue := markProcessing it.id t.queue,
                       tokens := [LoopToken.inflight it.id] } := by
            rw [runClaimStep, htok]
            simp [hproc, hpaus, hfind, htok]
          have hs2 : completeStep 0 o (runClaimStep 0 t) =
              { t with queue := applyOutcome it.id o (markProcessing it.id t.queue),
                       tokens := [LoopToken.claim] } := by
            rw [hs1, completeStep]
            rfl
          rw [hs2]
          apply ih
          · show pendingCount (applyOutcome it.id o (markProcessing it.id t.queue)) ≤
              rest.length
            have hlt := pendingCount_iteration_lt t.queue it o hfind
            simp only [List.length_cons] at hcount
            omega
          · rfl
          · exact hproc
          · exact hpaus

/-- Claim C6: the claim step of `processNext` takes the first `pending`
record in Store order (every earlier record is non-pending, whatever mix of
done/error records precedes it), and Retry-one / Retry-all keep every record
at its original position (the id sequence of the Store is unchanged, so a
record returned to `pending` stays in place rather than moving to the
tail). -/
theorem fifo_first_pending_and_retry_in_place (q : List QueueItem)
    (itemId : Nat) (it : QueueItem)
    (h : q.find? (fun r => r.status == Status.pending) = some it) :
    (it.status = Status.pending ∧
      ∃ l1 l2, q = l1 ++ it :: l2 ∧ ∀ r ∈ l1, r.status ≠ Status.pending) ∧
    (retrySingleItemQueue itemId q).map (fun r => r.id) =
      q.map (fun r => r.id) ∧
    (retryAllErrorsQueue q).map (fun r => r.id) = q.map (fun r => r.id) := by
  refine ⟨?_, ?_, ?_⟩
  · obtain ⟨hp, l1, l2, rfl, hl1⟩ := find?_split _ _ _ h
    refine ⟨by simpa using hp, l1, l2, rfl, ?_⟩
    intro r hr
    have := hl1 r hr
    simpa using this
  · simp only [retrySingleItemQueue, List.map_map]
    apply List.map_congr_left
    intro r _
    by_cases hi : r.id = itemId <;> simp [Function.comp, hi]
  · simp only [retryAllErrorsQueue, List.map_map]
    apply List.map_congr_left
    intro r _
    by_cases hs : r.status = Status.error <;> simp [Function.comp, hs]

/-- Witness for C6 on a queue whose first record errored: the scan selects
the later pending record, and retries leave the id order unchanged. -/
theorem fifo_first_pending_and_retry_in_place_witness :
    (pendItem.status = Status.pending ∧
      ∃ l1 l2, [errItem, pendItem] = l1 ++ pendItem :: l2 ∧
        ∀ r ∈ l1, r.status ≠ Status.pending) ∧
    (retrySingleItemQueue 1 [errItem, pendItem]).map (fun r => r.id) =
      [errItem, pendItem].map (fun r => r.id) ∧
    (retryAllErrorsQueue [errItem, pendItem]).map (fun r => r.id) =
      [errItem, pendItem].map (fun r => r.id) :=
  fifo_first_pending_and_retry_in_place [errItem, pendItem] 1 pendItem
    (by decide)

/-- Claim C7: a claim step that finds no pending record clears the processing
flag, leaves the Job Store untouched, and retires the loop invocation without
starting a generation call; consequently the synchronous drain over any
finite queue halts once the client has answered once per pending record. -/
theorem drain_termination (s : AppState) (i : Nat)
    (h1 : hasPending s.queue = false)
    (h2 : s.tokens.get? i = some LoopToken.claim) (h3 : s.processing = true)
    (h4 : s.paused = false) :
    ((step (Label.runClaim i) s).queue = s.queue ∧
      (step (Label.runClaim i) s).processing = false ∧
      (step (Label.runClaim i) s).tokens = s.tokens.eraseIdx i) ∧
    ∀ (outs : List GenOutcome) (t : AppState),
      pendingCount t.queue ≤ outs.length → t.tokens = [LoopToken.claim] →
      t.processing = true → t.paused = false →
      (drainLoop outs t).processing = false := by
  constructor
  · have hfind := find?_pending_eq_none s.queue h1
    have hstep : runClaimStep i s =
        { s with processing := false, tokens := s.tokens.eraseIdx i } := by
      unfold runClaimStep
      rw [h2]
      simp [h3, h4, hfind]
    show (runClaimStep i s).queue = s.queue ∧
      (runClaimStep i s).processing = false ∧
      (runClaimStep i s).tokens = s.tokens.eraseIdx i
    rw [hstep]
    exact ⟨rfl, rfl, rfl⟩
  · intro outs t hc ht hp hq
    exact drainLoop_halts outs t hc ht hp hq

/-- Witness for C7 at a drained one-record Store. -/
theorem drain_termination_witness :
    ((step (Label.runClaim 0) stateDrained).queue = stateDrained.queue ∧
      (step (Label.runClaim 0) stateDrained).processing = false ∧
      (step (Label.runClaim 0) stateDrained).tokens =
        stateDrained.tokens.eraseIdx 0) ∧
    (drainLoop [] stateDrained).processing = false := by
  have h := drain_termination stateDrained 0 (by decide) (by decide) rfl rfl
  exact ⟨h.1, h.2 [] stateDrained (by decide) rfl rfl rfl⟩

/-- Claim C8: Pause sets `paused := true, processing := false`; afterwards a
claim step never changes the Job Store (no new job is claimed), while the
completion of an already in-flight generation call still resolves its record
to `done` on success and `error` on failure. -/
theorem pause_halts_intake_not_completion (s : AppState) :
    (step Label.pause s).paused = true ∧
    (step Label.pause s).processing = false ∧
    (∀ i, (step (Label.runClaim i) (step Label.pause s)).queue =
      (step Label.pause s).queue) ∧
    (∀ i jid o,
      (step Label.pause s).tokens.get? i = some (LoopToken.inflight jid) →
      ∀ r ∈ (step (Label.complete i o) (step Label.pause s)).queue,
        r.id = jid → r.status = outcomeStatus o) := by
  refine ⟨rfl, rfl, ?_, ?_⟩
  · intro i
    show (runClaimStep i (handlePause s)).queue = (handlePause s).queue
    unfold runClaimStep
    cases htok : (handlePause s).tokens.get? i with
    | none => simp [htok]
    | some t =>
        cases t with
        | claim => simp [htok, handlePause]
        | inflight jid => simp [htok]
  · intro i jid o htok r hr hid
    have hc : step (Label.complete i o) (step Label.pause s) =
        { handlePause s with
            queue := applyOutcome jid o (handlePause s).queue,
            tokens := (handlePause s).tokens.set i LoopToken.claim } := by
      show completeStep i o (handlePause s) = _
      unfold completeStep
      have htok2 : (handlePause s).tokens.get? i =
          some (LoopToken.inflight jid) := htok
      rw [htok2]
    rw [hc] at hr
    simp only [applyOutcome, List.mem_map] at hr
    obtain ⟨r0, _, hr0⟩ := hr
    cases o with
    | success url =>
        by_cases hi : r0.id = jid
        · rw [if_pos hi] at hr0
          subst hr0
          rfl
        · rw [if_neg hi] at hr0
          subst hr0
          exact absurd hid hi
    | failure msg =>
        by_cases hi : r0.id = jid
        · rw [if_pos hi] at hr0
          subst hr0
          rfl
        · rw [if_neg hi] at hr0
          subst hr0
          exact absurd hid hi

/-- Witness for C8: pausing `stateInflight` and letting the in-flight call
for job 0 fail still marks that record `error`. -/
theorem pause_halts_intake_not_completion_witness :
    (step Label.pause stateInflight).paused = true ∧
    (step Label.pause stateInflight).processing = false ∧
    (step (Label.runClaim 0) (step Label.pause stateInflight)).queue =
      (step Label.pause stateInflight).queue ∧
    (pausedCompleteQueue.headI.status = outcomeStatus (GenOutcome.failure "boom")) := by
  have h := pause_halts_intake_not_completion stateInflight
  refine ⟨h.1, h.2.1, h.2.2.1 0, ?_⟩
  exact h.2.2.2 0 0 (GenOutcome.failure "boom") (by decide)
    pausedCompleteQueue.headI (by decide) (by decide)

/-- Id sequence is preserved by any id-preserving map over the Store. -/
theorem nodup_ids_map (q : List QueueItem) (f : QueueItem → QueueItem)
    (hid : ∀ r, (f r).id = r.id)
    (h3 : (q.map (fun r => r.id)).Nodup) :
    ((q.map f).map (fun r => r.id)).Nodup := by
  have heq : (q.map f).map (fun r => r.id) = q.map (fun r => r.id) := by
    rw [List.map_map]
    apply List.map_congr_left
    intro r _
    exact hid r
  rw [heq]
  exact h3

/-- Id bound is preserved by any id-preserving map over the Store. -/
theorem ids_lt_map (q : List QueueItem) (f : QueueItem → QueueItem)
    (hid : ∀ r, (f r).id = r.id) (n : Nat) (h4 : ∀ r ∈ q, r.id < n) :
    ∀ r ∈ q.map f, r.id < n := by
  intro r hr
  simp only [List.mem_map] at hr
  obtain ⟨r0, hr0, rfl⟩ := hr
  rw [hid]
  exact h4 r0 hr0

/-- The invariant is preserved by steps that only map the Store through an
id-preserving function that never produces a `processing` status. -/
theorem sysInv_queue_map (s : AppState) (f : QueueItem → QueueItem)
    (hid : ∀ r, (f r).id = r.id)
    (hst : ∀ r, (f r).status = Status.processing →
      r.status = Status.processing)
    (h : SysInv s) : SysInv { s with queue := s.queue.map f } := by
  obtain ⟨h1, h2, h3, h4⟩ := h
  refine ⟨h1, ?_, nodup_ids_map _ _ hid h3, ids_lt_map _ _ hid _ h4⟩
  intro r hr hstat
  simp only [List.mem_map] at hr
  obtain ⟨r0, hr0, rfl⟩ := hr
  rw [hid]
  exact h2 r0 hr0 (hst r0 hstat)

/-- The invariant is preserved by steps that only filter the Store. -/
theorem sysInv_queue_filter (s : AppState) (p : QueueItem → Bool)
    (h : SysInv s) : SysInv { s with queue := s.queue.filter p } := by
  obtain ⟨h1, h2, h3, h4⟩ := h
  refine ⟨h1, ?_, ?_, ?_⟩
  · intro r hr hstat
    exact h2 r (List.mem_of_mem_filter hr) hstat
  · exact h3.sublist ((s.queue.filter_sublist).map _)
  · intro r hr
    exact h4 r (List.mem_of_mem_filter hr)

/-- Appending a claim token adds no in-flight id. -/
theorem inflightIds_append_claim (ts : List LoopToken) :
    inflightIds (ts ++ [LoopToken.claim]) = inflightIds ts := by
  simp [inflightIds, List.filterMap_append]

/-- With at most one outstanding token, a successful lookup pins the token
list down to a singleton. -/
theorem tokens_singleton_of_get? (ts : List LoopToken) (i : Nat)
    (t : LoopToken) (hlen : ts.length ≤ 1) (h : ts.get? i = some t) :
    ts = [t] ∧ i = 0 := by
  match ts, i with
  | [], j => simp at h
  | [x], 0 =>
      simp at h
      exact ⟨by rw [h], rfl⟩
  | [x], n+1 => simp at h
  | x :: y :: rest, j => simp at hlen

/-- A duplicate-free list of naturals whose members are all equal has at most
one element. -/
theorem length_le_one_of_nodup_allEq (l : List Nat) (a : Nat) (hnd : l.Nodup)
    (hall : ∀ x ∈ l, x = a) : l.length ≤ 1 := by
  match l with
  | [] => simp
  | [x] => simp
  | x :: y :: rest =>
      exfalso
      have hx : x = a := hall x (by simp)
      have hy : y = a := hall y (by simp)
      rw [List.nodup_cons] at hnd
      apply hnd.1
      have hxy : x = y := by rw [hx, hy]
      rw [hxy]
      exact List.mem_cons_self y rest

/-- The invariant bounds the number of `processing` records by one. -/
theorem processingCount_le_one_of_sysInv (s : AppState) (h : SysInv s) :
    processingCount s.queue ≤ 1 := by
  obtain ⟨h1, h2, h3, -⟩ := h
  rw [processingCount, List.countP_eq_length_filter]
  have hmem : ∀ r ∈ s.queue.filter (fun r => r.status == Status.processing),
      r.status = Status.processing := by
    intro r hr
    rw [List.mem_filter] at hr
    simpa using hr.2
  have hsub : List.Sublist
      (s.queue.filter (fun r => r.status == Status.processing)) s.queue :=
    List.filter_sublist _
  have hnd : ((s.queue.filter (fun r => r.status == Status.processing)).map
      (fun r => r.id)).Nodup := h3.sublist (hsub.map _)
  have hin : ∀ r ∈ s.queue.filter (fun r => r.status == Status.processing),
      r.id ∈ inflightIds s.tokens := by
    intro r hr
    exact h2 r (hsub.subset hr) (hmem r hr)
  cases htok : s.tokens with
  | nil =>
      have hempty : s.queue.filter (fun r => r.status == Status.processing) = [] := by
        rw [List.eq_nil_iff_forall_not_mem]
        intro r hr
        have := hin r hr
        rw [htok] at this
        simp [inflightIds] at this
      rw [hempty]
      simp
  | cons t rest =>
      have hrest : rest = [] := by
        rw [htok] at h1
        simp only [List.length_cons] at h1
        exact List.eq_nil_of_length_eq_zero (by omega)
      subst hrest
      cases t with
      | claim =>
          have hempty : s.queue.filter (fun r => r.status == Status.processing) = [] := by
            rw [List.eq_nil_iff_forall_not_mem]
            intro r hr
            have := hin r hr
            rw [htok] at this
            simp [inflightIds] at this
          rw [hempty]
          simp
      | inflight a =>
          have hall : ∀ x ∈ (s.queue.filter
              (fun r => r.status == Status.processing)).map (fun r => r.id),
              x = a := by
            intro x hx
            simp only [List.mem_map] at hx
            obtain ⟨r, hr, rfl⟩ := hx
            have := hin r hr
            rw [htok] at this
            simpa [inflightIds] using this
          have := length_le_one_of_nodup_allEq _ a hnd hall
          simpa using this

/-- Fresh records produced by `handleStart` are all pending. -/
theorem mkItems_status (lines : List String) (n : Nat) :
    ∀ r ∈ mkItems lines n, r.status = Status.pending := by
  induction lines generalizing n with
  | nil => intro r hr; simp [mkItems] at hr
  | cons line rest ih =>
      intro r hr
      rw [mkItems] at hr
      rcases List.mem_cons.mp hr with rfl | hr2
      · rfl
      · exact ih (n + 1) r hr2

/-- Fresh records carry ids in the assigned counter range. -/
theorem mkItems_id_bounds (lines : List String) (n : Nat) :
    ∀ r ∈ mkItems lines n, n ≤ r.id ∧ r.id < n + lines.length := by
  induction lines generalizing n with
  | nil => intro r hr; simp [mkItems] at hr
  | cons line rest ih =>
      intro r hr
      rw [mkItems] at hr
      rcases List.mem_cons.mp hr with rfl | hr2
      · simp
      · have := ih (n + 1) r hr2
        simp only [List.length_cons]
        omega

/-- Fresh records carry pairwise distinct ids. -/
theorem mkItems_ids_nodup (lines : List String) (n : Nat) :
    ((mkItems lines n).map (fun r => r.id)).Nodup := by
  induction lines generalizing n with
  | nil => simp [mkItems]
  | cons line rest ih =>
      rw [mkItems]
      simp only [List.map_cons, List.nodup_cons]
      constructor
      · intro hmemb
        simp only [List.mem_map] at hmemb
        obtain ⟨r, hr, hid⟩ := hmemb
        have hb := mkItems_id_bounds rest (n + 1) r hr
        have hid2 : r.id = n := hid
        omega
      · exact ih (n + 1)

/-- A lone claim token carries no in-flight id. -/
theorem inflightIds_claim_singleton : inflightIds [LoopToken.claim] = [] := rfl

/-- A lone in-flight token carries exactly its job id. -/
theorem inflightIds_inflight_singleton (j : Nat) :
    inflightIds [LoopToken.inflight j] = [j] := rfl

/-- Appending freshly numbered pending records preserves the Store-side
invariant components. -/
theorem sysInv_append_core (q : List QueueItem) (ts : List LoopToken)
    (lines : List String) (n : Nat)
    (h2 : ∀ r ∈ q, r.status = Status.processing → r.id ∈ inflightIds ts)
    (h3 : (q.map (fun r => r.id)).Nodup) (h4 : ∀ r ∈ q, r.id < n) :
    (∀ r ∈ q ++ mkItems lines n, r.status = Status.processing →
      r.id ∈ inflightIds ts) ∧
    ((q ++ mkItems lines n).map (fun r => r.id)).Nodup ∧
    (∀ r ∈ q ++ mkItems lines n, r.id < n + lines.length) := by
  refine ⟨?_, ?_, ?_⟩
  · intro r hr hstat
    rcases List.mem_append.mp hr with hr1 | hr1
    · exact h2 r hr1 hstat
    · rw [mkItems_status lines n r hr1] at hstat
      exact absurd hstat (by simp)
  · rw [List.map_append, List.nodup_append]
    refine ⟨h3, mkItems_ids_nodup lines n, ?_⟩
    intro a ha1 ha2
    simp only [List.mem_map] at ha1 ha2
    obtain ⟨r1, hr1, rfl⟩ := ha1
    obtain ⟨r2, hr2, hid⟩ := ha2
    have b1 := h4 r1 hr1
    have b2 := (mkItems_id_bounds lines n r2 hr2).1
    omega
  · intro r hr
    rcases List.mem_append.mp hr with hr1 | hr1
    · have := h4 r hr1
      omega
    · exact (mkItems_id_bounds lines n r hr1).2
/-- Every safe transition preserves the invariant. -/
theorem sysInv_step (l : Label) (s : AppState) (h : SysInv s)
    (hsafe : safeLabel s l = true) : SysInv (step l s) := by
  cases l with
  | pause => exact h
  | stop => exact h
  | setInput input => exact h
  | edit itemId p =>
      refine sysInv_queue_map s
        (fun item => if item.id = itemId then
          { item with prompt := p, isEditing := false } else item) ?_ ?_ h
      · intro r
        try dsimp only
        split <;> rfl
      · intro r
        try dsimp only
        split <;> exact fun hst => hst
  | reconcile itemId files =>
      cases files with
      | nil => exact h
      | cons latest rest =>
          refine sysInv_queue_map s
            (fun item => if item.id = itemId && item.status == Status.done
              then { item with imageUrl := some latest } else item) ?_ ?_ h
          · intro r
            try dsimp only
            split <;> rfl
          · intro r
            try dsimp only
            split <;> exact fun hst => hst
  | clearAll =>
      show SysInv { s with queue := handleClearAllQueue s.queue }
      unfold handleClearAllQueue
      refine sysInv_queue_filter _ _ (sysInv_queue_map s (fun item =>
        { item with imageUrl := none,
                    status := if item.status = Status.done then
                                Status.pending
                              else item.status }) ?_ ?_ h)
      · intro r
        rfl
      · intro r hst
        try dsimp only at hst
        by_cases hd : r.status = Status.done
        · simp [hd] at hst
        · simpa [hd] using hst
  | retryOne itemId =>
      show SysInv (retrySingleItem itemId s)
      unfold retrySingleItem
      cases hp : s.processing with
      | true =>
          rw [if_pos rfl]
          refine sysInv_queue_map s
            (fun item => if item.id = itemId then
              { item with status := Status.pending, errorMsg := none }
              else item) ?_ ?_ h
          · intro r
            try dsimp only
            split <;> rfl
          · intro r
            try dsimp only
            split
            · exact fun hst => absurd hst (by simp)
            · exact fun hst => hst
      | false =>
          rw [if_neg Bool.false_ne_true]
          have htok : s.tokens = [] := by
            rw [safeLabel] at hsafe
            rw [hp] at hsafe
            simp only [Bool.or_false] at hsafe
            exact List.isEmpty_iff.mp hsafe
          refine ⟨?_, ?_, ?_, ?_⟩
          · rw [htok]
            simp
          · intro r hr hstat
            simp only [retrySingleItemQueue, List.mem_map] at hr
            obtain ⟨r0, hr0, rfl⟩ := hr
            try dsimp only at hstat
            have hst0 : r0.status = Status.processing := by
              revert hstat
              split
              · exact fun hstat => absurd hstat (by simp)
              · exact fun hstat => hstat
            have := h.2.1 r0 hr0 hst0
            rw [htok] at this
            simp [inflightIds] at this
          · exact nodup_ids_map _ _
              (fun r => by split <;> rfl) h.2.2.1
          · exact ids_lt_map _ _
              (fun r => by split <;> rfl) _ h.2.2.2
  | retryAll =>
      show SysInv (retryAllErrors s)
      unfold retryAllErrors
      cases hp : s.processing with
      | true =>
          rw [if_pos rfl]
          refine sysInv_queue_map s
            (fun item => if item.status = Status.error then
              { item with status := Status.pending, errorMsg := none }
              else item) ?_ ?_ h
          · intro r
            try dsimp only
            split <;> rfl
          · intro r
            try dsimp only
            split
            · exact fun hst => absurd hst (by simp)
            · exact fun hst => hst
      | false =>
          rw [if_neg Bool.false_ne_true]
          have htok : s.tokens = [] := by
            rw [safeLabel] at hsafe
            rw [hp] at hsafe
            simp only [Bool.or_false] at hsafe
            exact List.isEmpty_iff.mp hsafe
          refine ⟨?_, ?_, ?_, ?_⟩
          · rw [htok]
            simp
          · intro r hr hstat
            simp only [retryAllErrorsQueue, List.mem_map] at hr
            obtain ⟨r0, hr0, rfl⟩ := hr
            try dsimp only at hstat
            have hst0 : r0.status = Status.processing := by
              revert hstat
              split
              · exact fun hstat => absurd hstat (by simp)
              · exact fun hstat => hstat
            have := h.2.1 r0 hr0 hst0
            rw [htok] at this
            simp [inflightIds] at this
          · exact nodup_ids_map _ _
              (fun r => by split <;> rfl) h.2.2.1
          · exact ids_lt_map _ _
              (fun r => by split <;> rfl) _ h.2.2.2
  | start =>
      by_cases hc : s.cookie = ""
      · have hnc : step Label.start s = s := by simp [step, handleStart, hc]
        rw [hnc]
        exact h
      · by_cases he : (parsedLines s.promptsInput).isEmpty ∧
            hasPending s.queue = false
        · have h5 : parsedLines s.promptsInput = [] :=
            List.isEmpty_iff.mp he.1
          have hnc : step Label.start s = s := by
            simp [step, handleStart, hc, h5, he.2]
          rw [hnc]
          exact h
        · have h4 : ((parsedLines s.promptsInput).isEmpty &&
              !hasPending s.queue) = false := by
            cases hb : (parsedLines s.promptsInput).isEmpty with
            | false => simp [hb]
            | true =>
                cases hpnd : hasPending s.queue with
                | false => exact absurd ⟨hb, hpnd⟩ he
                | true => simp [hpnd]
          cases hp : s.processing with
          | true =>
              have hstep : step Label.start s =
                  { s with
                      queue := s.queue ++
                        mkItems (parsedLines s.promptsInput) s.nextId,
                      promptsInput :=
                        if (parsedLines s.promptsInput).isEmpty then
                          s.promptsInput else "",
                      nextId := s.nextId +
                        (parsedLines s.promptsInput).length,
                      paused := false } := by
                simp [step, handleStart, hc, h4, hp]
              rw [hstep]
              obtain ⟨c2, c3, c4⟩ := sysInv_append_core s.queue s.tokens
                (parsedLines s.promptsInput) s.nextId h.2.1 h.2.2.1 h.2.2.2
              exact ⟨h.1, c2, c3, c4⟩
          | false =>
              have htok : s.tokens = [] := by
                rw [safeLabel] at hsafe
                rw [hp] at hsafe
                simp only [Bool.or_false] at hsafe
                exact List.isEmpty_iff.mp hsafe
              have hstep : step Label.start s =
                  { s with
                      queue := s.queue ++
                        mkItems (parsedLines s.promptsInput) s.nextId,
                      promptsInput :=
                        if (parsedLines s.promptsInput).isEmpty then
                          s.promptsInput else "",
                      nextId := s.nextId +
                        (parsedLines s.promptsInput).length,
                      paused := false, processing := true,
                      tokens := s.tokens ++ [LoopToken.claim] } := by
                simp [step, handleStart, hc, h4, hp]
              rw [hstep]
              have h2' : ∀ r ∈ s.queue, r.status = Status.processing →
                  r.id ∈ inflightIds (s.tokens ++ [LoopToken.claim]) := by
                intro r hr hstat
                rw [inflightIds_append_claim]
                exact h.2.1 r hr hstat
              obtain ⟨c2, c3, c4⟩ := sysInv_append_core s.queue
                (s.tokens ++ [LoopToken.claim])
                (parsedLines s.promptsInput) s.nextId h2' h.2.2.1 h.2.2.2
              refine ⟨?_, c2, c3, c4⟩
              rw [htok]
              simp
  | runClaim i =>
      show SysInv (runClaimStep i s)
      unfold runClaimStep
      cases htok : s.tokens.get? i with
      | none => exact h
      | some t =>
          cases t with
          | inflight jid => exact h
          | claim =>
              obtain ⟨hts, hi0⟩ :=
                tokens_singleton_of_get? s.tokens i _ h.1 htok
              subst hi0
              cases hg : (s.processing && !s.paused) with
              | false =>
                  rw [if_neg Bool.false_ne_true]
                  refine ⟨?_, ?_, h.2.2.1, h.2.2.2⟩
                  · rw [hts]
                    simp
                  · intro r hr hstat
                    have := h.2.1 r hr hstat
                    rw [hts, inflightIds_claim_singleton] at this
                    simp at this
              | true =>
                  rw [if_pos rfl]
                  cases hfind : s.queue.find?
                      (fun r => r.status == Status.pending) with
                  | none =>
                      refine ⟨?_, ?_, h.2.2.1, h.2.2.2⟩
                      · rw [hts]
                        simp
                      · intro r hr hstat
                        have := h.2.1 r hr hstat
                        rw [hts, inflightIds_claim_singleton] at this
                        simp at this
                  | some it =>
                      refine ⟨?_, ?_, ?_, ?_⟩
                      · rw [hts]
                        simp
                      · intro r hr hstat
                        simp only [markProcessing, List.mem_map] at hr
                        obtain ⟨r0, hr0, rfl⟩ := hr
                        try dsimp only at hstat ⊢
                        rw [hts]
                        by_cases hi : r0.id = it.id
                        · rw [if_pos hi]
                          simp [inflightIds, hi]
                        · rw [if_neg hi] at hstat ⊢
                          have := h.2.1 r0 hr0 hstat
                          rw [hts, inflightIds_claim_singleton] at this
                          simp at this
                      · exact nodup_ids_map _ _
                          (fun r => by split <;> rfl) h.2.2.1
                      · exact ids_lt_map _ _
                          (fun r => by split <;> rfl) _ h.2.2.2
  | complete i o =>
      show SysInv (completeStep i o s)
      unfold completeStep
      cases htok : s.tokens.get? i with
      | none => exact h
      | some t =>
          cases t with
          | claim => exact h
          | inflight jid =>
              obtain ⟨hts, hi0⟩ :=
                tokens_singleton_of_get? s.tokens i _ h.1 htok
              subst hi0
              refine ⟨?_, ?_, ?_, ?_⟩
              · rw [hts]
                simp
              · intro r hr hstat
                simp only [applyOutcome, List.mem_map] at hr
                obtain ⟨r0, hr0, rfl⟩ := hr
                try dsimp only at hstat
                by_cases hi : r0.id = jid
                · rw [if_pos hi] at hstat
                  cases o with
                  | success url => simp at hstat
                  | failure msg => simp at hstat
                · rw [if_neg hi] at hstat
                  try dsimp only
                  rw [if_neg hi]
                  have := h.2.1 r0 hr0 hstat
                  rw [hts, inflightIds_inflight_singleton] at this
                  simp at this
                  exact absurd this hi
              · refine nodup_ids_map _ _ ?_ h.2.2.1
                intro r
                try dsimp only
                by_cases hi : r.id = jid
                · rw [if_pos hi]
                  cases o with
                  | success url => rfl
                  | failure msg => rfl
                · rw [if_neg hi]
              · refine ids_lt_map _ _ ?_ _ h.2.2.2
                intro r
                try dsimp only
                by_cases hi : r.id = jid
                · rw [if_pos hi]
                  cases o with
                  | success url => rfl
                  | failure msg => rfl
                · rw [if_neg hi]

/-- The invariant holds along every safe trace. -/
theorem sysInv_run (ls : List Label) (s : AppState) (h : SysInv s)
    (hsafe : safeTrace ls s = true) : SysInv (run ls s) := by
  induction ls generalizing s with
  | nil => exact h
  | cons l rest ih =>
      rw [run]
      rw [safeTrace, Bool.and_eq_true] at hsafe
      exact ih (step l s) (sysInv_step l s h hsafe.1) hsafe.2

/-- The invariant holds in the initial state. -/
theorem sysInv_init (input cookie : String) : SysInv (initState input cookie) := by
  refine ⟨?_, ?_, ?_, ?_⟩ <;> simp [initState]

/-- Claim C1, amended: starting from an empty queue, after any sequence of
Control Surface operations and loop steps in which Start / Retry-one /
Retry-all are only invoked while the processing flag is set or no loop
activity is outstanding, at most one record is `processing` at any instant.
(The safety side condition is forced by the counterexample: the handlers
relaunch the loop whenever the flag is off, even though a previous
invocation may still be in flight after a Pause or Stop.) -/
theorem atMostOneProcessing_of_safeTrace (input cookie : String)
    (ls : List Label)
    (h : safeTrace ls (initState input cookie) = true) :
    processingCount (run ls (initState input cookie)).queue ≤ 1 :=
  processingCount_le_one_of_sysInv _
    (sysInv_run ls (initState input cookie) (sysInv_init input cookie) h)

/-- Witness for C1 (amended) on a two-step trace that submits one prompt and
claims it. -/
theorem atMostOneProcessing_witness :
    safeTrace [Label.start, Label.runClaim 0] (initState "a" "c") = true ∧
      processingCount
        (run [Label.start, Label.runClaim 0] (initState "a" "c")).queue ≤ 1 :=
  ⟨by decide,
   atMostOneProcessing_of_safeTrace "a" "c" [Label.start, Label.runClaim 0]
     (by decide)⟩

/-- Claim C1, counterexample: Start two prompts, let the loop claim the
first, Pause while its generation call is in flight, Start again (the
processing flag is off, so a second loop invocation is launched), and let the
new invocation claim the second prompt — two records are now `processing`
simultaneously. -/
theorem atMostOneProcessing_cex :
    ¬ processingCount
        (run [Label.start, Label.runClaim 0, Label.pause, Label.start,
              Label.runClaim 1] (initState "a\nb" "c")).queue ≤ 1 := by
  decide
